import Mathlib

/-!
Verification of the MusicMashupTool pipeline core: the Grouper
(step1_classifier.py), the Transform Planner (step2_pitch_tempo.py) and the
Assembler (step3_concat.py).  The tabular source/sink, audio codecs and the
DSP capability are external collaborators; they are modelled as explicit
data (cell values, file lists, sample lists) exactly where the Python code
consumes or produces them.
-/

namespace MusicMashup

/-! ## Python string and number primitives -/

/-- Characters removed by Python str.strip. -/
def isWS (c : Char) : Bool := c.isWhitespace

/-- Drop leading whitespace from a character list. -/
def dropLeadWS : List Char → List Char
  | [] => []
  | c :: cs => if isWS c then dropLeadWS cs else c :: cs

/-- Python str.strip: whitespace removed from both ends. -/
def pyStrip (s : String) : String :=
  String.mk (dropLeadWS ((dropLeadWS s.toList.reverse).reverse))

/-- Python str.upper (the key strings handled here are ASCII). -/
def pyUpper (s : String) : String := String.mk (s.toList.map Char.toUpper)

/-- Python str.lower (the strings handled here are ASCII). -/
def pyLower (s : String) : String := String.mk (s.toList.map Char.toLower)

/-- A spreadsheet cell as pandas hands it to the code: missing (NaN),
numeric, or text. -/
inductive CellVal
  | na
  | num (q : ℚ)
  | str (s : String)
deriving DecidableEq, Inhabited

/-- Value of a digit list read in base 10. -/
def digitsVal (l : List Char) : ℕ :=
  l.foldl (fun acc c => acc * 10 + (c.toNat - 48)) 0

/-- All characters are decimal digits. -/
def allDigits (l : List Char) : Bool := l.all (fun c => c.isDigit)

/-- Split a character list at the first dot, if any. -/
def spanNoDot : List Char → List Char × Option (List Char)
  | [] => ([], none)
  | c :: cs =>
      if c = '.' then ([], some cs)
      else
        let r := spanNoDot cs
        (c :: r.1, r.2)

/-- Model of Python float() on an unsigned decimal numeral: integer digits
with an optional fractional part.  Exotic literals (exponents, inf, nan)
never occur in the inputs this development handles. -/
def parseUnsigned (l : List Char) : Option ℚ :=
  let r := spanNoDot l
  match r.2 with
  | none => if l ≠ [] ∧ allDigits l then some (digitsVal l) else none
  | some fp =>
      if (r.1 ≠ [] ∨ fp ≠ []) ∧ allDigits r.1 ∧ allDigits fp then
        some ((digitsVal r.1 : ℚ) + (digitsVal fp : ℚ) / ((10 : ℚ) ^ fp.length))
      else none

/-- Model of Python float() on a plain decimal numeral with optional sign. -/
def parseNumeral? (s : String) : Option ℚ :=
  match s.toList with
  | [] => parseUnsigned []
  | c :: rest =>
      if c = '-' then (parseUnsigned rest).map (fun q => -q)
      else parseUnsigned (c :: rest)

/-- Python int() on a real value truncates toward zero. -/
def pyTrunc (q : ℚ) : ℤ := if 0 ≤ q then ⌊q⌋ else ⌈q⌉

/-! ## Grouper (step1_classifier.py) -/

/-- KEY_MAPPING of step1_classifier.py. -/
def KEY_MAPPING : List (String × ℤ) :=
  [("C", 0), ("C#", 1), ("Db", 1),
   ("D", 2), ("D#", 3), ("Eb", 3),
   ("E", 4),
   ("F", 5), ("F#", 6), ("Gb", 6),
   ("G", 7), ("G#", 8), ("Ab", 8),
   ("A", 9), ("A#", 10), ("Bb", 10),
   ("B", 11)]

/-- Exact dictionary lookup over an association list. -/
def lookupExact (m : List (String × ℤ)) (k : String) : Option ℤ :=
  (m.find? (fun p => p.1 == k)).map Prod.snd

/-- Case-insensitive lookup (the second pass of key_to_number). -/
def lookupUpper (m : List (String × ℤ)) (k : String) : Option ℤ :=
  (m.find? (fun p => pyUpper p.1 == pyUpper k)).map Prod.snd

/-- step1_classifier.key_to_number: empty cells raise; numeric values (and
numeric strings) are truncated to int and reduced mod 12; otherwise the
letter map is consulted exactly and then case-insensitively; anything else
raises. -/
def key_to_number : CellVal → Except String ℤ
  | .na => .error "key must not be empty"
  | .num q => .ok (pyTrunc q % 12)
  | .str s =>
      let ks := pyStrip s
      match parseNumeral? ks with
      | some q => .ok (pyTrunc q % 12)
      | none =>
          match lookupExact KEY_MAPPING ks with
          | some v => .ok v
          | none =>
              match lookupUpper KEY_MAPPING ks with
              | some v => .ok v
              | none => .error ("unrecognized key: " ++ ks)

/-- A song record after the Grouper normalizes its fields: resolved pitch
class, numeric tempo, lowercased stripped gender, stringified id. -/
structure Song where
  id : String
  keyNum : ℤ
  bpm : ℚ
  gender : String
deriving DecidableEq, Inhabited

/-- The candidate test of classify_songs_core's scan loop: equal normalized
gender, circular pitch-class distance within keyRange, absolute tempo
difference within bpmRange. -/
def songMatchesB (keyRange bpmRange : ℤ) (anchor cand : Song) : Bool :=
  if cand.gender ≠ anchor.gender then false
  else
    let kd : ℤ := |cand.keyNum - anchor.keyNum|
    let kdc : ℤ := min kd (12 - kd)
    if kdc > keyRange then false
    else decide (|cand.bpm - anchor.bpm| ≤ (bpmRange : ℚ))

/-- The inner candidate loop for one anchor: scan all indices in row order,
skipping those already consumed as anchors. -/
def scanMatches (songs : List Song) (keyRange bpmRange : ℤ)
    (used : List ℕ) (aIdx : ℕ) : List ℕ :=
  (List.range songs.length).filter
    (fun j => !(used.contains j) &&
      songMatchesB keyRange bpmRange (songs.getD aIdx default) (songs.getD j default))

/-- The outer anchor loop, with the mutable used_as_anchor set made an
explicit accumulator: each anchor is added to the set before its scan. -/
def classifyAux (songs : List Song) (keyRange bpmRange : ℤ)
    (used : List ℕ) : List ℕ → List (List ℕ)
  | [] => []
  | i :: rest =>
      (i :: scanMatches songs keyRange bpmRange (i :: used) i) ::
        classifyAux songs keyRange bpmRange (i :: used) rest

/-- The grouping pass of classify_songs_core: every record becomes an
anchor once, in input order. -/
def classifyGroups (songs : List Song) (keyRange bpmRange : ℤ) : List (List ℕ) :=
  classifyAux songs keyRange bpmRange [] (List.range songs.length)

/-- One logical sink entry per (anchor, match) pair: the two consecutive
written rows plus the merged product-name cell. -/
structure SinkRow where
  anchorIdx : ℕ
  matchIdx : ℕ
  productName : String
deriving DecidableEq

/-- Product name written into the merged cell: "{anchorId}-{matchId}-拼接成品". -/
def productNameOf (songs : List Song) (a m : ℕ) : String :=
  (songs.getD a default).id ++ "-" ++ (songs.getD m default).id ++ "-拼接成品"

/-- The row pairs one retained group contributes: anchor with each match,
in scan order. -/
def groupPairs (songs : List Song) : List ℕ → List SinkRow
  | [] => []
  | a :: ms => ms.map (fun m => ⟨a, m, productNameOf songs a m⟩)

/-- The Excel-writing loop of classify_songs_core: groups of size one are
skipped; a retained group emits one anchor/match row pair per match, in
scan order. -/
def sinkRows (songs : List Song) (groups : List (List ℕ)) : List SinkRow :=
  groups.flatMap (fun g => if g.length = 1 then [] else groupPairs songs g)

/-- A raw input row before validation (id / name / gender already carried
as the strings pandas produces for them). -/
structure RawRow where
  id : String
  name : String
  key : CellVal
  bpm : CellVal
  gender : String
deriving DecidableEq

/-- The raw input table with the presence of the three required logical
columns recorded. -/
structure RawTable where
  hasNameCol : Bool
  hasKeyCol : Bool
  hasBpmCol : Bool
  rows : List RawRow

/-- pandas to_numeric(errors="coerce") on one cell, as consumed by the
subsequent isna().any() check: numeric cells and numeric literals survive,
everything else becomes NaN (none). -/
def toNumeric? : CellVal → Option ℚ
  | .na => none
  | .num q => some q
  | .str s => parseNumeral? (pyStrip s)

/-- Filesystem effects of the Grouper stage. -/
inductive CEffect
  | saveWorkbook
deriving DecidableEq

/-- Result of a successful Grouper run: all groups, the sink rows, and the
file effects performed (the workbook save happens last, after all
validation and grouping). -/
structure ClassifyResult where
  groups : List (List ℕ)
  sink : List SinkRow
  effects : List CEffect

/-- pandas Series.apply: evaluates the function row by row and propagates
the first raised error. -/
def mapExcept {α β ε : Type} (f : α → Except ε β) : List α → Except ε (List β)
  | [] => .ok []
  | x :: xs =>
      match f x with
      | .error e => .error e
      | .ok y =>
          match mapExcept f xs with
          | .error e => .error e
          | .ok ys => .ok (y :: ys)

/-- pandas to_numeric over a column followed by the isna().any() check:
the coerced column survives only if every cell coerced. -/
def mapOption {α β : Type} (f : α → Option β) : List α → Option (List β)
  | [] => some []
  | x :: xs =>
      match f x with
      | none => none
      | some y =>
          match mapOption f xs with
          | none => none
          | some ys => some (y :: ys)

/-- step1_classifier.classify_songs_core, with its steps in source order:
column check, key resolution (raises on the first bad key), tempo coercion
check, grouping, sink-row generation, and only then the workbook save. -/
def classify_songs_core (t : RawTable) (keyRange bpmRange : ℤ) :
    Except String ClassifyResult :=
  if ¬(t.hasNameCol = true ∧ t.hasKeyCol = true ∧ t.hasBpmCol = true) then
    .error "the Excel file must contain name, key and bpm columns"
  else
    match mapExcept (fun r => key_to_number r.key) t.rows with
    | .error e => .error e
    | .ok keys =>
        match mapOption (fun r => toNumeric? r.bpm) t.rows with
        | none => .error "the Excel file contains an invalid bpm value"
        | some bpms =>
            let songs := (List.zip (List.zip t.rows keys) bpms).map
              (fun p => { id := p.1.1.id, keyNum := p.1.2, bpm := p.2,
                          gender := pyLower (pyStrip p.1.1.gender) : Song })
            let gs := classifyGroups songs keyRange bpmRange
            .ok { groups := gs, sink := sinkRows songs gs,
                  effects := [CEffect.saveWorkbook] }

/-- The file effects a Grouper run performs (none when it raises). -/
def classifyEffects (t : RawTable) (keyRange bpmRange : ℤ) : List CEffect :=
  match classify_songs_core t keyRange bpmRange with
  | .ok r => r.effects
  | .error _ => []

/-! ## Transform Planner (step2_pitch_tempo.py) -/

/-- KEY_MAPPING of step2_pitch_tempo.py (uppercase keys, enharmonic extras). -/
def KEY_MAPPING_STEP2 : List (String × ℤ) :=
  [("C", 0), ("C#", 1), ("DB", 1),
   ("D", 2), ("D#", 3), ("EB", 3),
   ("E", 4), ("FB", 4),
   ("F", 5), ("E#", 5), ("F#", 6), ("GB", 6),
   ("G", 7), ("G#", 8), ("AB", 8),
   ("A", 9), ("A#", 10), ("BB", 10),
   ("B", 11), ("CB", 11), ("B#", 0)]

/-- The mode markers removed from the end of a key string, in the order the
regex alternation tries them. -/
def modeSuffixes : List (List Char) :=
  ["M".toList, "MIN".toList, "MAJOR".toList, "MAJ".toList,
   "M7".toList, "M9".toList, "M11".toList]

/-- One alternative of the mode-marker pattern, tried against the reversed
tail of the key string. -/
def sufStrip (r : List Char) (suf : List Char) : Option (List Char) :=
  if suf.reverse.isPrefixOf r then some (r.drop suf.length) else none

/-- Model of re.sub removing one trailing mode marker together with the
spaces around it: working on the reversed string, trailing spaces are
dropped, the first alternative that matches is removed, and spaces before
it are dropped too. -/
def stripModeSuffix (l : List Char) : List Char :=
  let r := dropLeadWS l.reverse
  match modeSuffixes.findSome? (sufStrip r) with
  | some rest => (dropLeadWS rest).reverse
  | none => r.reverse

/-- step2_pitch_tempo.parse_key_to_semitone: empty keys resolve to nothing;
otherwise strip, uppercase, remove a mode suffix and consult the map
(numeric strings are not in the map, so they resolve to nothing). -/
def parse_key_to_semitone (key : String) : Option ℤ :=
  if key = "" then none
  else
    let ks := stripModeSuffix (pyUpper (pyStrip key)).toList
    lookupExact KEY_MAPPING_STEP2 (String.mk ks)

/-- The wrap-once normalization inside calculate_semitone_shift: add or
subtract 12 once when the raw difference leaves [-6, 6]. -/
def pyNormalize (d : ℤ) : ℤ :=
  if d > 6 then d - 12 else if d < -6 then d + 12 else d

/-- step2_pitch_tempo.calculate_semitone_shift: target pitch class minus
source pitch class, wrapped once into [-6, 6]; nothing when either key is
unresolvable. -/
def calculate_semitone_shift (sourceKey targetKey : String) : Option ℤ :=
  match parse_key_to_semitone sourceKey, parse_key_to_semitone targetKey with
  | some s, some t => some (pyNormalize (t - s))
  | _, _ => none

/-- A Python float as the planner sees one: NaN or an exact rational. -/
inductive PFloat
  | nan
  | q (x : ℚ)
deriving DecidableEq

/-- Python "x > 0" on a float: false for NaN. -/
def PFloat.pos : PFloat → Bool
  | .nan => false
  | .q x => decide (0 < x)

/-- Python float division (only ever invoked with a positive divisor). -/
def PFloat.div : PFloat → PFloat → PFloat
  | .q a, .q b => .q (a / b)
  | _, _ => .nan

/-- Python float() applied to a cell: NaN cells stay NaN without raising,
numeric strings parse, other strings raise (none). -/
def pyFloat? : CellVal → Option PFloat
  | .na => some .nan
  | .num x => some (.q x)
  | .str s => (parseNumeral? (pyStrip s)).map .q

/-- An audio file as the resolver sees it: stem and extension (with dot). -/
structure AFile where
  stem : String
  ext : String
deriving DecidableEq, Inhabited

/-- The audio extensions find_audio_files accepts. -/
def audioExtensionsStep2 : List String :=
  [".wav", ".mp3", ".m4a", ".flac", ".aac", ".ogg", ".wma"]

/-- Separators allowed right after the id in an identity match. -/
def sepChars : List Char := ['-', '_', ' ']

/-- The identity-pass test of find_audio_files: audio extension, stem
starts with the (stripped) id, and the id is followed by end-of-name or a
separator. -/
def identMatchB (sid : String) (f : AFile) : Bool :=
  (audioExtensionsStep2.contains (pyLower f.ext)) &&
  (sid.toList.isPrefixOf f.stem.toList) &&
  ((f.stem.toList.length == sid.toList.length) ||
    (match f.stem.toList.get? sid.toList.length with
     | some c => sepChars.contains c
     | none => false))

/-- Substring test on character lists ([] is a substring of everything, as
with Python's "in"). -/
def isInfixB (needle : List Char) : List Char → Bool
  | [] => needle.isEmpty
  | c :: t => needle.isPrefixOf (c :: t) || isInfixB needle t

/-- The name-pass test of find_audio_files: audio extension and the
cleaned song name a case-insensitive substring of the stem. -/
def nameMatchB (sname : String) (f : AFile) : Bool :=
  (audioExtensionsStep2.contains (pyLower f.ext)) &&
  isInfixB (pyLower (pyStrip sname)).toList (pyLower f.stem).toList

/-- Lexicographic comparison by code point, as Python compares strings. -/
def lexLe : List Char → List Char → Bool
  | [], _ => true
  | _ :: _, [] => false
  | a :: as, b :: bs =>
      if a.toNat < b.toNat then true
      else if b.toNat < a.toNat then false
      else lexLe as bs

/-- The stem ordering used by sorted(matches, key=stem). -/
def stemRel (a b : AFile) : Prop := lexLe a.stem.toList b.stem.toList = true

instance : DecidableRel stemRel := fun _ _ => instDecidableEqBool _ _

/-- Python sorted(matches, key=lambda x: x.stem). -/
def sortByStem (l : List AFile) : List AFile := List.insertionSort stemRel l

/-- The name-substring pass of find_audio_files, reached when the identity
pass produced nothing: collect case-insensitive substring matches of the
song name (skipped for an empty name), sorted by stem, empty otherwise. -/
def nameFallback (files : List AFile) (songName : String) : List AFile :=
  if songName ≠ "" then
    (if files.filter (nameMatchB songName) ≠ [] then
       sortByStem (files.filter (nameMatchB songName))
     else [])
  else []

/-- step2_pitch_tempo.find_audio_files: identity pass first (only when the
id is non-blank and not "nan"), name-substring fallback only when the
identity pass found nothing, result sorted by stem. -/
def find_audio_files (files : List AFile) (songId songName : String) : List AFile :=
  if songId ≠ "" ∧ pyStrip songId ≠ "" ∧ pyLower songId ≠ "nan" then
    (if files.filter (identMatchB (pyStrip songId)) ≠ [] then
       sortByStem (files.filter (identMatchB (pyStrip songId)))
     else nameFallback files songName)
  else nameFallback files songName

/-- Characters illegal in filenames, replaced by an underscore. -/
def illegalChars : List Char := ['<', '>', ':', '"', '/', '\\', '|', '?', '*']

/-- sanitize_filename of step2_pitch_tempo.py and step3_concat.py. -/
def sanitize_filename (s : String) : String :=
  String.mk (s.toList.map (fun c => if illegalChars.contains c then '_' else c))

/-- One classified-sheet row as the planner reads it back (id already
stringified by get_id_value, key and product already str()-stripped). -/
structure PRow where
  id : String
  name : String
  keyStr : String
  bpm : CellVal
  product : String
deriving DecidableEq, Inhabited

/-- A planner task: one match-song audio file with the pair's shared
transform parameters. -/
structure Task where
  product : String
  anchorFiles : List AFile
  audioFile : AFile
  shift : ℤ
  rate : PFloat
deriving DecidableEq

/-- The product name used for a pair: the anchor row's merged cell, with a
sequential fallback when blank. -/
def pairProductName (pairIdx : ℕ) (anchor : PRow) : String :=
  if anchor.product = "" then "pair_" ++ toString (pairIdx + 1) else anchor.product

/-- The per-pair section of process_pitch_tempo_core's task-building loop,
with its skip points in source order: anchor bpm unparsable, match bpm
unparsable, key difference unresolvable, tempo ratio undefined (match bpm
not positive).  One task is emitted per resolved match-song audio file. -/
def pairTasks (pairIdx : ℕ) (anchor matchRow : PRow) (files : List AFile) : List Task :=
  let product := pairProductName pairIdx anchor
  match pyFloat? anchor.bpm with
  | none => []
  | some anchorBpm =>
      match pyFloat? matchRow.bpm with
      | none => []
      | some matchBpm =>
          let anchorFiles := find_audio_files files anchor.id anchor.name
          match calculate_semitone_shift matchRow.keyStr anchor.keyStr with
          | none => []
          | some shift =>
              match (if matchBpm.pos then some (anchorBpm.div matchBpm) else none) with
              | none => []
              | some rate =>
                  (find_audio_files files matchRow.id matchRow.name).map
                    (fun f => { product := product, anchorFiles := anchorFiles,
                                audioFile := f, shift := shift, rate := rate })

/-- The task-building pass over the classified sheet: consecutive row pairs
(anchor, match), len(df) // 2 of them. -/
def planPairs (rows : List PRow) (files : List AFile) : List Task :=
  (List.range (rows.length / 2)).flatMap
    (fun k => pairTasks k (rows.getD (2 * k) default) (rows.getD (2 * k + 1) default) files)

/-- Observable actions of the execution loop. -/
inductive Event
  | copyAnchor (path : String)
  | skipDup (key : String)
  | processWrite (path : String)
deriving DecidableEq

/-- State of the execution loop: the two in-memory dedup sets (fresh every
run), the success counter, the set of files existing in the output
directory, and the event log. -/
structure RunState where
  processed : List String
  copied : List String
  success : ℕ
  fs : List String
  events : List Event
deriving DecidableEq

/-- Insert a path into the file set if absent (writing an existing path
overwrites it and leaves the set unchanged). -/
def fsInsert (fs : List String) (p : String) : List String :=
  if p ∈ fs then fs else fs ++ [p]

/-- Output path of an anchor copy or processed match file. -/
def outPath (folder : String) (stem : String) : String :=
  folder ++ "/" ++ sanitize_filename stem ++ ".wav"

/-- The anchor-copy loop: each anchor file is copied (or converted) to the
product folder only if the output path does not already exist on disk. -/
def copyAnchorFiles (folder : String) (afs : List AFile) (st : RunState) : RunState :=
  afs.foldl
    (fun st af =>
      let p := outPath folder af.stem
      if p ∈ st.fs then st
      else { st with fs := st.fs ++ [p], events := st.events ++ [.copyAnchor p] })
    st

/-- The composite dedup key: product name plus source file stem. -/
def taskKey (t : Task) : String := t.product ++ "||" ++ t.audioFile.stem

/-- The anchor-copy phase of one loop iteration: run the anchor-copy loop
and record the product as copied, once per product per run. -/
def anchorPhase (st : RunState) (t : Task) : RunState :=
  if t.product ∈ st.copied then st
  else
    let st2 := copyAnchorFiles (sanitize_filename t.product) t.anchorFiles st
    { st2 with copied := st2.copied ++ [t.product] }

/-- One iteration of the execution loop of process_pitch_tempo_core: copy
the anchor files once per product, then either skip a duplicate
(product, stem) key seen earlier in THIS run, or load, transform and write
the match file (unconditionally overwriting any previous output).  Audio
processing and IO are external collaborators assumed to succeed. -/
def runTask (st : RunState) (t : Task) : RunState :=
  let st1 := anchorPhase st t
  let key := taskKey t
  if key ∈ st1.processed then
    { st1 with success := st1.success + 1, events := st1.events ++ [.skipDup key] }
  else
    let p := outPath (sanitize_filename t.product) t.audioFile.stem
    { st1 with fs := fsInsert st1.fs p,
               events := st1.events ++ [.processWrite p],
               processed := st1.processed ++ [key],
               success := st1.success + 1 }

/-- The execution loop over all tasks, started with empty in-memory dedup
sets and the current state of the output directory. -/
def runTasks (ts : List Task) (fs0 : List String) : RunState :=
  ts.foldl runTask { processed := [], copied := [], success := 0, fs := fs0, events := [] }

/-- step2_pitch_tempo.process_pitch_tempo_core: build the task list from
the classified sheet, execute it, return (success count, total count). -/
def process_pitch_tempo_core (rows : List PRow) (files : List AFile)
    (fs0 : List String) : ℕ × ℕ × RunState :=
  let ts := planPairs rows files
  let r := runTasks ts fs0
  (r.success, ts.length, r)

/-! ## Assembler (step3_concat.py) -/

/-- The audio extensions of step3, in the order find_audio_file tries them. -/
def audioExtensionsStep3 : List String :=
  [".mp3", ".wav", ".m4a", ".flac", ".ogg", ".aac"]

/-- The fixed segment labels: front refrain and back refrain. -/
def frontLabel : String := "前段副歌"

/-- The back-refrain segment label. -/
def backLabel : String := "后段副歌"

/-- A pair's conformed-audio folder: relative path of each contained file
(root files, plus files in an id subfolder) mapped to its decoded samples.
Samples are abstract tokens; decoding is an external collaborator. -/
abbrev Folder : Type := List (String × List ℕ)

/-- step3_concat.find_audio_file: look for "{id}-{segment}{ext}" at the
folder root for each extension in order, then inside the id subfolder. -/
def find_audio_file (folder : Folder) (songId segment : String) : Option String :=
  match audioExtensionsStep3.findSome?
      (fun ext =>
        let p := songId ++ "-" ++ segment ++ ext
        if (folder.lookup p).isSome then some p else none) with
  | some p => some p
  | none =>
      audioExtensionsStep3.findSome?
        (fun ext =>
          let p := songId ++ "/" ++ songId ++ "-" ++ segment ++ ext
          if (folder.lookup p).isSome then some p else none)

/-- Decoded samples of a file known to exist in the folder. -/
def loadAudio (folder : Folder) (p : String) : List ℕ :=
  (folder.lookup p).getD []

/-- step3_concat.create_silence: a non-positive duration yields an empty
segment, otherwise int(duration * 1000) milliseconds of silence (one token
per millisecond). -/
def create_silence (durationSeconds : ℚ) : List ℕ :=
  if durationSeconds ≤ 0 then []
  else List.replicate (⌊durationSeconds * 1000⌋).toNat 0

/-- step3_concat.concat_audio_pair: locate the four segments (raising a
missing-file error naming the first absent one, in source order), then
concatenate silence, A-front, silence, B-front, silence, A-back, silence,
B-back, silence. -/
def concat_audio_pair (folder : Folder) (idA idB : String) (gap : ℚ) :
    Except String (List ℕ) :=
  match find_audio_file folder idA frontLabel with
  | none => .error ("找不到音频文件: " ++ idA ++ "-" ++ frontLabel)
  | some pAF =>
      match find_audio_file folder idB frontLabel with
      | none => .error ("找不到音频文件: " ++ idB ++ "-" ++ frontLabel)
      | some pBF =>
          match find_audio_file folder idA backLabel with
          | none => .error ("找不到音频文件: " ++ idA ++ "-" ++ backLabel)
          | some pAB =>
              match find_audio_file folder idB backLabel with
              | none => .error ("找不到音频文件: " ++ idB ++ "-" ++ backLabel)
              | some pBB =>
                  let silence := create_silence gap
                  .ok (silence ++ loadAudio folder pAF ++
                       silence ++ loadAudio folder pBF ++
                       silence ++ loadAudio folder pAB ++
                       silence ++ loadAudio folder pBB ++
                       silence)

/-- Maximal leading run of digits and the remainder. -/
def takeDigits : List Char → List Char × List Char
  | [] => ([], [])
  | c :: cs =>
      if c.isDigit then
        let r := takeDigits cs
        (c :: r.1, r.2)
      else ([], c :: cs)

/-- Python str.split for a one-character separator (empty parts kept). -/
def splitOnChar (sep : Char) : List Char → List (List Char)
  | [] => [[]]
  | c :: cs =>
      let r := splitOnChar sep cs
      if c = sep then [] :: r
      else
        match r with
        | [] => [[c]]
        | h :: t => (c :: h) :: t

/-- The fallback of parse_product_name: split on "-" and take the first
two parts when there are at least two. -/
def fallbackSplit (product : String) : String × String :=
  match splitOnChar '-' product.toList with
  | a :: b :: _ => (String.mk a, String.mk b)
  | _ => ("", "")

/-- step3_concat.parse_product_name: match "digits-digits-" at the start,
else fall back to splitting on "-". -/
def parse_product_name (product : String) : String × String :=
  let r1 := takeDigits product.toList
  match r1.1, r1.2 with
  | _ :: _, '-' :: rest2 =>
      let r2 := takeDigits rest2
      match r2.1, r2.2 with
      | _ :: _, '-' :: _ => (String.mk r1.1, String.mk r2.1)
      | _, _ => fallbackSplit product
  | _, _ => fallbackSplit product

/-- One classified-sheet row as the Assembler reads it (only the merged
product-name cell of the anchor row is consumed). -/
structure CRow where
  product : String
deriving DecidableEq, Inhabited

/-- The per-pair body of concat_audio_core's loop: skip on blank product
name, unparsable ids, or a missing pair folder; catch the missing-segment
(or any) error of concat_audio_pair; on success export one file named
from the sanitized product name. -/
def concat_pair_outcome (fsRoot : List (String × Folder)) (gap : ℚ)
    (product : String) : Option (String × List ℕ) :=
  if product = "" then none
  else
    let ids := parse_product_name product
    if ids.1 = "" ∨ ids.2 = "" then none
    else
      let safe := sanitize_filename product
      match fsRoot.lookup safe with
      | none => none
      | some folder =>
          match concat_audio_pair folder ids.1 ids.2 gap with
          | .ok audio => some (safe ++ ".mp3", audio)
          | .error _ => none

/-- Result of an Assembler run. -/
structure AssembleResult where
  success : ℕ
  total : ℕ
  exports : List (String × List ℕ)
deriving DecidableEq

/-- Outcome of the pair at index k of the classified sheet (its anchor row
is row 2k). -/
def pairOutcomeAt (rows : List CRow) (fsRoot : List (String × Folder))
    (gap : ℚ) (k : ℕ) : Option (String × List ℕ) :=
  concat_pair_outcome fsRoot gap ((rows.getD (2 * k) default).product)

/-- One iteration of concat_audio_core's loop: a successful pair bumps the
success count and appends its export; a failing pair leaves the state
unchanged. -/
def assembleStep (rows : List CRow) (fsRoot : List (String × Folder)) (gap : ℚ)
    (st : ℕ × List (String × List ℕ)) (k : ℕ) : ℕ × List (String × List ℕ) :=
  match pairOutcomeAt rows fsRoot gap k with
  | some e => (st.1 + 1, st.2 ++ [e])
  | none => st

/-- step3_concat.concat_audio_core: len(df) // 2 consecutive row pairs;
each pair is attempted independently (a failing pair is logged and
skipped, never aborting the batch); returns the success and total
counts together with the exported files. -/
def concat_audio_core (rows : List CRow) (fsRoot : List (String × Folder))
    (gap : ℚ) : AssembleResult :=
  let n := rows.length / 2
  let r := (List.range n).foldl (assembleStep rows fsRoot gap) (0, [])
  { success := r.1, total := n, exports := r.2 }

/-! ## Supporting lemmas -/

theorem mk_toList (s : String) : String.mk s.toList = s := rfl

theorem parse_key_step2_mem {k : String} {v : ℤ}
    (h : lookupExact KEY_MAPPING_STEP2 k = some v) :
    ∃ p ∈ KEY_MAPPING_STEP2, p.2 = v := by
  unfold lookupExact at h
  rcases hf : KEY_MAPPING_STEP2.find? (fun p => p.1 == k) with _ | p
  · rw [hf] at h; simp at h
  · rw [hf] at h
    simp only [Option.map_some'] at h
    exact ⟨p, List.mem_of_find?_eq_some hf, by injection h⟩

theorem parse_key_range {k : String} {v : ℤ}
    (h : parse_key_to_semitone k = some v) : 0 ≤ v ∧ v ≤ 11 := by
  unfold parse_key_to_semitone at h
  split at h
  · cases h
  · obtain ⟨p, hp, hv⟩ := parse_key_step2_mem h
    have : ∀ p ∈ KEY_MAPPING_STEP2, 0 ≤ p.2 ∧ p.2 ≤ 11 := by decide
    rw [← hv]; exact this p hp

/-! ## C4: semitone normalization -/

/-- C4: whenever both keys resolve, calculate_semitone_shift returns
exactly the wrap-once normalization of (target pitch class minus source
pitch class), and that normalized value lies in [-6, 6] and is congruent
to the raw difference mod 12. -/
theorem semitone_normalization_spec (sourceKey targetKey : String) (s t : ℤ)
    (hs : parse_key_to_semitone sourceKey = some s)
    (ht : parse_key_to_semitone targetKey = some t) :
    calculate_semitone_shift sourceKey targetKey = some (pyNormalize (t - s)) ∧
    -6 ≤ pyNormalize (t - s) ∧ pyNormalize (t - s) ≤ 6 ∧
    pyNormalize (t - s) % 12 = (t - s) % 12 := by
  obtain ⟨hs0, hs1⟩ := parse_key_range hs
  obtain ⟨ht0, ht1⟩ := parse_key_range ht
  refine ⟨by simp [calculate_semitone_shift, hs, ht], ?_, ?_, ?_⟩ <;>
    · unfold pyNormalize
      split_ifs <;> omega

theorem semitone_normalization_witness :
    calculate_semitone_shift "D" "C" = some (pyNormalize (0 - 2)) ∧
    -6 ≤ pyNormalize (0 - 2) ∧ pyNormalize (0 - 2) ≤ 6 ∧
    pyNormalize (0 - 2) % 12 = (0 - 2) % 12 :=
  semitone_normalization_spec "D" "C" 2 0 (by decide) (by decide)

/-! ## C10: numeric keys pass the Grouper, fail the Planner -/

/-- The decimal digit characters. -/
def digitChars : List Char := ['0', '1', '2', '3', '4', '5', '6', '7', '8', '9']

theorem digit_not_ws {c : Char} (h : c ∈ digitChars) : isWS c = false := by
  fin_cases h <;> decide

theorem digit_isDigit {c : Char} (h : c ∈ digitChars) : c.isDigit = true := by
  fin_cases h <;> decide

theorem digit_toUpper {c : Char} (h : c ∈ digitChars) : c.toUpper = c := by
  fin_cases h <;> decide

theorem digit_ne_dash {c : Char} (h : c ∈ digitChars) : c ≠ '-' := by
  fin_cases h <;> decide

theorem digit_ne_dot {c : Char} (h : c ∈ digitChars) : c ≠ '.' := by
  fin_cases h <;> decide

theorem dropLeadWS_digits {l : List Char} (h : ∀ c ∈ l, c ∈ digitChars) :
    dropLeadWS l = l := by
  cases l with
  | nil => rfl
  | cons c cs => simp [dropLeadWS, digit_not_ws (h c (by simp))]

theorem pyStrip_digits {s : String} (h : ∀ c ∈ s.toList, c ∈ digitChars) :
    pyStrip s = s := by
  have h1 : ∀ c ∈ s.toList.reverse, c ∈ digitChars :=
    fun c hc => h c (List.mem_reverse.mp hc)
  unfold pyStrip
  rw [dropLeadWS_digits h1, List.reverse_reverse, dropLeadWS_digits h, mk_toList]

theorem map_fixed_of_mem {α : Type} {f : α → α} :
    ∀ {l : List α}, (∀ c ∈ l, f c = c) → l.map f = l := by
  intro l
  induction l with
  | nil => intro _; rfl
  | cons c cs ih =>
      intro h
      simp [h c (by simp), ih (fun x hx => h x (by simp [hx]))]

theorem pyUpper_digits {s : String} (h : ∀ c ∈ s.toList, c ∈ digitChars) :
    pyUpper s = s := by
  unfold pyUpper
  rw [map_fixed_of_mem (fun c hc => digit_toUpper (h c hc)), mk_toList]

theorem spanNoDot_nodot {l : List Char} (h : ∀ c ∈ l, c ≠ '.') :
    spanNoDot l = (l, none) := by
  induction l with
  | nil => rfl
  | cons c cs ih =>
      have hc := h c (by simp)
      simp [spanNoDot, hc, ih (fun x hx => h x (by simp [hx]))]

theorem allDigits_of_mem {l : List Char} (h : ∀ c ∈ l, c ∈ digitChars) :
    allDigits l = true := by
  simp only [allDigits, List.all_eq_true]
  exact fun c hc => digit_isDigit (h c hc)

theorem parseUnsigned_digits {l : List Char} (hne : l ≠ [])
    (h : ∀ c ∈ l, c ∈ digitChars) :
    parseUnsigned l = some ((digitsVal l : ℚ)) := by
  simp only [parseUnsigned, spanNoDot_nodot (fun c hc => digit_ne_dot (h c hc))]
  simp [hne, allDigits_of_mem h]

theorem parseNumeral?_digits {s : String} (hne : s.toList ≠ [])
    (h : ∀ c ∈ s.toList, c ∈ digitChars) :
    parseNumeral? s = some ((digitsVal s.toList : ℚ)) := by
  rcases hl : s.toList with _ | ⟨c, cs⟩
  · exact absurd hl hne
  · have h2 : ∀ x ∈ c :: cs, x ∈ digitChars := by rw [← hl]; exact h
    have hc : c ≠ '-' := digit_ne_dash (h2 c (by simp))
    simp only [parseNumeral?, hl, if_neg hc]
    exact parseUnsigned_digits (by simp) h2

theorem pyTrunc_natCast (n : ℕ) : pyTrunc (n : ℚ) = n := by
  unfold pyTrunc
  rw [if_pos (by positivity), Int.floor_natCast]

theorem key_to_number_digits {s : String} (hne : s.toList ≠ [])
    (h : ∀ c ∈ s.toList, c ∈ digitChars) :
    key_to_number (.str s) = .ok ((digitsVal s.toList : ℤ) % 12) := by
  simp only [key_to_number, pyStrip_digits h, parseNumeral?_digits hne h,
    pyTrunc_natCast]

theorem step2_keys_nondigit :
    ∀ p ∈ KEY_MAPPING_STEP2, ∃ c ∈ p.1.toList, ¬ c ∈ digitChars := by decide

theorem lookupExact_step2_digits {l : List Char} (h : ∀ c ∈ l, c ∈ digitChars) :
    lookupExact KEY_MAPPING_STEP2 (String.mk l) = none := by
  unfold lookupExact
  have hfind : KEY_MAPPING_STEP2.find? (fun p => p.1 == String.mk l) = none := by
    rw [List.find?_eq_none]
    intro p hp hbeq
    obtain ⟨c, hc1, hc2⟩ := step2_keys_nondigit p hp
    have heq : p.1 = String.mk l := by
      have := hbeq
      exact eq_of_beq this
    rw [heq] at hc1
    exact hc2 (h c hc1)
  rw [hfind]
  rfl

theorem stripModeSuffix_digits {l : List Char} (h : ∀ c ∈ l, c ∈ digitChars) :
    stripModeSuffix l = l := by
  have hrev : ∀ c ∈ l.reverse, c ∈ digitChars :=
    fun c hc => h c (List.mem_reverse.mp hc)
  unfold stripModeSuffix
  rw [dropLeadWS_digits hrev]
  have hfind : modeSuffixes.findSome? (sufStrip l.reverse) = none := by
    rw [List.findSome?_eq_none_iff]
    intro suf hsuf
    unfold sufStrip
    cases hb : suf.reverse.isPrefixOf l.reverse with
    | false => simp
    | true =>
        exfalso
        have hsub := (List.isPrefixOf_iff_prefix.mp hb).subset
        have hM : 'M' ∈ suf.reverse := by fin_cases hsuf <;> decide
        exact absurd (hrev 'M' (hsub hM)) (by decide)
  simp only [hfind, List.reverse_reverse]

theorem parse_key_to_semitone_digits {s : String} (hne : s.toList ≠ [])
    (h : ∀ c ∈ s.toList, c ∈ digitChars) :
    parse_key_to_semitone s = none := by
  have hs : s ≠ "" := by
    intro he
    rw [he] at hne
    exact hne rfl
  unfold parse_key_to_semitone
  rw [if_neg hs, pyStrip_digits h, pyUpper_digits h, stripModeSuffix_digits h]
  exact lookupExact_step2_digits h

theorem calculate_shift_none_left {src tgt : String}
    (h : parse_key_to_semitone src = none) :
    calculate_semitone_shift src tgt = none := by
  cases htgt : parse_key_to_semitone tgt <;>
    simp [calculate_semitone_shift, h, htgt]

theorem calculate_shift_none_right {src tgt : String}
    (h : parse_key_to_semitone tgt = none) :
    calculate_semitone_shift src tgt = none := by
  cases hsrc : parse_key_to_semitone src <;>
    simp [calculate_semitone_shift, h, hsrc]

theorem pairTasks_skip_key {k : ℕ} {a m : PRow} {files : List AFile}
    (h : calculate_semitone_shift m.keyStr a.keyStr = none) :
    pairTasks k a m files = [] := by
  unfold pairTasks
  rcases ha : pyFloat? a.bpm with _ | aq
  · rfl
  · rcases hm : pyFloat? m.bpm with _ | mq
    · rfl
    · simp [h]

/-- C10: a purely numeric key (a digit string, or any numeric cell) is
accepted by the Grouper's key parser and resolved mod 12, while the
Planner's key parser resolves it to nothing, so any pair carrying such a
key is planned no tasks. -/
theorem numeric_key_divergence (s : String)
    (hne : s.toList ≠ []) (hdig : ∀ c ∈ s.toList, c ∈ digitChars) :
    key_to_number (.str s) = .ok ((digitsVal s.toList : ℤ) % 12) ∧
    (∀ q : ℚ, key_to_number (.num q) = .ok (pyTrunc q % 12)) ∧
    parse_key_to_semitone s = none ∧
    (∀ (k : ℕ) (a m : PRow) (files : List AFile),
      a.keyStr = s ∨ m.keyStr = s → pairTasks k a m files = []) := by
  refine ⟨key_to_number_digits hne hdig, fun _ => rfl,
    parse_key_to_semitone_digits hne hdig, ?_⟩
  intro k a m files hor
  rcases hor with h | h
  · exact pairTasks_skip_key
      (calculate_shift_none_right (by rw [h]; exact parse_key_to_semitone_digits hne hdig))
  · exact pairTasks_skip_key
      (calculate_shift_none_left (by rw [h]; exact parse_key_to_semitone_digits hne hdig))

theorem numeric_key_divergence_witness :
    key_to_number (.str "14") = .ok ((digitsVal "14".toList : ℤ) % 12) ∧
    (∀ q : ℚ, key_to_number (.num q) = .ok (pyTrunc q % 12)) ∧
    parse_key_to_semitone "14" = none ∧
    (∀ (k : ℕ) (a m : PRow) (files : List AFile),
      a.keyStr = "14" ∨ m.keyStr = "14" → pairTasks k a m files = []) :=
  numeric_key_divergence "14" (by decide) (by decide)

/-! ## C3: tempo ratio and tempo-based skips -/

theorem pairTasks_anchor_none {k : ℕ} {a m : PRow} {files : List AFile}
    (h : pyFloat? a.bpm = none) : pairTasks k a m files = [] := by
  unfold pairTasks
  rw [h]

theorem pairTasks_match_none {k : ℕ} {a m : PRow} {files : List AFile}
    (h : pyFloat? m.bpm = none) : pairTasks k a m files = [] := by
  unfold pairTasks
  rcases hA : pyFloat? a.bpm with _ | aq
  · rfl
  · rw [h]

theorem pairTasks_match_nonpos {k : ℕ} {a m : PRow} {files : List AFile} {mq : PFloat}
    (hm : pyFloat? m.bpm = some mq) (hpos : mq.pos = false) :
    pairTasks k a m files = [] := by
  simp only [pairTasks, hm, hpos]
  rcases hA : pyFloat? a.bpm with _ | aq
  · rfl
  · rcases hsh : calculate_semitone_shift m.keyStr a.keyStr with _ | sh
    · rfl
    · simp

theorem pairTasks_emit {k : ℕ} {a m : PRow} {files : List AFile} {aq mq : PFloat} {sh : ℤ}
    (ha : pyFloat? a.bpm = some aq) (hm : pyFloat? m.bpm = some mq)
    (hsh : calculate_semitone_shift m.keyStr a.keyStr = some sh)
    (hpos : mq.pos = true) :
    pairTasks k a m files =
      (find_audio_files files m.id m.name).map
        (fun f => ({ product := pairProductName k a,
                     anchorFiles := find_audio_files files a.id a.name,
                     audioFile := f, shift := sh, rate := aq.div mq } : Task)) := by
  simp only [pairTasks, ha, hm, hsh, hpos]
  simp

/-- C3 (amended): every emitted task of a pair carries
rate = anchorTempo / matchTempo, and the pair's tasks are skipped whenever
the anchor tempo is non-numeric, the match tempo is non-numeric, or the
match tempo is not positive; an anchor tempo that is ≤ 0 but numeric is
not checked and does not cause a skip. -/
theorem planner_tempo_spec (k : ℕ) (a m : PRow) (files : List AFile) :
    (∀ t ∈ pairTasks k a m files, ∃ aq mq,
        pyFloat? a.bpm = some aq ∧ pyFloat? m.bpm = some mq ∧
        mq.pos = true ∧ t.rate = aq.div mq) ∧
    ((pyFloat? a.bpm = none ∨ pyFloat? m.bpm = none ∨
        (∃ mq, pyFloat? m.bpm = some mq ∧ mq.pos = false)) →
      pairTasks k a m files = []) := by
  constructor
  · intro t ht
    rcases ha : pyFloat? a.bpm with _ | aq
    · rw [pairTasks_anchor_none ha] at ht
      cases ht
    rcases hm : pyFloat? m.bpm with _ | mq
    · rw [pairTasks_match_none hm] at ht
      cases ht
    rcases hsh : calculate_semitone_shift m.keyStr a.keyStr with _ | sh
    · rw [pairTasks_skip_key hsh] at ht
      cases ht
    cases hpos : mq.pos with
    | false =>
        rw [pairTasks_match_nonpos hm hpos] at ht
        cases ht
    | true =>
        rw [pairTasks_emit ha hm hsh hpos] at ht
        simp only [List.mem_map] at ht
        obtain ⟨f, _, rfl⟩ := ht
        exact ⟨aq, mq, rfl, rfl, hpos, rfl⟩
  · intro hbad
    rcases hbad with h | h | ⟨mq2, hmq2, hpos2⟩
    · exact pairTasks_anchor_none h
    · exact pairTasks_match_none h
    · exact pairTasks_match_nonpos hmq2 hpos2

theorem planner_tempo_witness :
    pairTasks 0 (⟨"1", "x", "C", .num 100, "p"⟩ : PRow)
      (⟨"2", "y", "C", .num 0, ""⟩ : PRow) [] = [] :=
  (planner_tempo_spec 0 ⟨"1", "x", "C", .num 100, "p"⟩
    ⟨"2", "y", "C", .num 0, ""⟩ []).2 (Or.inr (Or.inr ⟨.q 0, rfl, by decide⟩))

/-- A concrete planner input whose anchor tempo is 0 (so ≤ 0) while
everything else resolves. -/
def tempoCexRows : List PRow :=
  [⟨"1", "x", "C", .num 0, "1-2-拼接成品"⟩, ⟨"2", "y", "C", .num 120, ""⟩]

/-- The audio files available to the planner in the C3 counterexample. -/
def tempoCexFiles : List AFile := [⟨"1-front", ".wav"⟩, ⟨"2-front", ".mp3"⟩]

/-- C3 counterexample: the anchor tempo of the first pair is 0, which is
≤ 0, yet the Planner does not skip the pair: it still emits its task list
(only a non-positive MATCH tempo is rejected). -/
theorem planner_anchor_tempo_cex :
    (tempoCexRows.getD 0 default).bpm = CellVal.num 0 ∧ (0 : ℚ) ≤ 0 ∧
    planPairs tempoCexRows tempoCexFiles ≠ [] := by
  refine ⟨rfl, le_refl 0, ?_⟩
  decide

/-! ## C5: Assembler concatenation order -/

/-- C5: when all four segments are present, the Assembler's output is
exactly silence, A-front, silence, B-front, silence, A-back, silence,
B-back, silence with five equal silence gaps, and a non-positive gap
collapses the silence to an empty segment rather than an error. -/
theorem assembler_concat_order (folder : Folder) (idA idB : String) (gap : ℚ)
    (pAF pBF pAB pBB : String)
    (h1 : find_audio_file folder idA frontLabel = some pAF)
    (h2 : find_audio_file folder idB frontLabel = some pBF)
    (h3 : find_audio_file folder idA backLabel = some pAB)
    (h4 : find_audio_file folder idB backLabel = some pBB) :
    concat_audio_pair folder idA idB gap =
      .ok (create_silence gap ++ loadAudio folder pAF ++
           create_silence gap ++ loadAudio folder pBF ++
           create_silence gap ++ loadAudio folder pAB ++
           create_silence gap ++ loadAudio folder pBB ++
           create_silence gap) ∧
    (gap ≤ 0 → create_silence gap = []) ∧
    (0 < gap → (create_silence gap).length = (⌊gap * 1000⌋).toNat) := by
  refine ⟨?_, ?_, ?_⟩
  · simp [concat_audio_pair, h1, h2, h3, h4]
  · intro h
    simp [create_silence, h]
  · intro h
    rw [create_silence, if_neg (by exact not_le.mpr h)]
    simp

/-- A conformed-audio folder holding the four segments for ids 1 and 2. -/
def wFolder : Folder :=
  [("1-前段副歌.mp3", [10]), ("2-前段副歌.wav", [20]),
   ("1-后段副歌.mp3", [30]), ("2-后段副歌.mp3", [40])]

theorem assembler_concat_order_witness :
    concat_audio_pair wFolder "1" "2" ((1 : ℚ) / 2) =
      .ok (create_silence ((1 : ℚ) / 2) ++ loadAudio wFolder "1-前段副歌.mp3" ++
           create_silence ((1 : ℚ) / 2) ++ loadAudio wFolder "2-前段副歌.wav" ++
           create_silence ((1 : ℚ) / 2) ++ loadAudio wFolder "1-后段副歌.mp3" ++
           create_silence ((1 : ℚ) / 2) ++ loadAudio wFolder "2-后段副歌.mp3" ++
           create_silence ((1 : ℚ) / 2)) ∧
    ((1 : ℚ) / 2 ≤ 0 → create_silence ((1 : ℚ) / 2) = []) ∧
    (0 < (1 : ℚ) / 2 →
      (create_silence ((1 : ℚ) / 2)).length = (⌊(1 : ℚ) / 2 * 1000⌋).toNat) :=
  assembler_concat_order wFolder "1" "2" ((1 : ℚ) / 2)
    "1-前段副歌.mp3" "2-前段副歌.wav" "1-后段副歌.mp3" "2-后段副歌.mp3"
    (by decide) (by decide) (by decide) (by decide)

/-! ## C8: validation errors precede any output -/

theorem mapExcept_error_of_mem {α β ε : Type} {f : α → Except ε β} :
    ∀ {l : List α} {x : α}, x ∈ l → (∃ e, f x = .error e) →
      ∃ e2, mapExcept f l = .error e2 := by
  intro l
  induction l with
  | nil => intro x hx _; cases hx
  | cons a as ih =>
      intro x hx hfe
      rcases hfa : f a with ea | y
      · exact ⟨ea, by unfold mapExcept; rw [hfa]⟩
      · rcases List.mem_cons.mp hx with rfl | hx2
        · obtain ⟨e, he⟩ := hfe
          rw [he] at hfa
          cases hfa
        · obtain ⟨e2, he2⟩ := ih hx2 hfe
          exact ⟨e2, by unfold mapExcept; rw [hfa, he2]⟩

theorem mapOption_none_of_mem {α β : Type} {f : α → Option β} :
    ∀ {l : List α} {x : α}, x ∈ l → f x = none → mapOption f l = none := by
  intro l
  induction l with
  | nil => intro x hx _; cases hx
  | cons a as ih =>
      intro x hx hfx
      rcases hfa : f a with _ | y
      · unfold mapOption; rw [hfa]
      · rcases List.mem_cons.mp hx with rfl | hx2
        · rw [hfx] at hfa; cases hfa
        · unfold mapOption
          rw [hfa, ih hx2 hfx]

/-- C8: a missing required column, an unresolvable key, or a non-numeric
tempo makes the Grouper run fail with an error, and no workbook save
effect is performed — the save sits after all validation. -/
theorem grouper_validation_spec (t : RawTable) (keyRange bpmRange : ℤ)
    (h : ¬(t.hasNameCol = true ∧ t.hasKeyCol = true ∧ t.hasBpmCol = true) ∨
         (∃ r ∈ t.rows, ∃ e, key_to_number r.key = .error e) ∨
         (∃ r ∈ t.rows, toNumeric? r.bpm = none)) :
    (∃ e, classify_songs_core t keyRange bpmRange = .error e) ∧
    classifyEffects t keyRange bpmRange = [] := by
  have hmain : ∃ e, classify_songs_core t keyRange bpmRange = .error e := by
    unfold classify_songs_core
    by_cases hcols : t.hasNameCol = true ∧ t.hasKeyCol = true ∧ t.hasBpmCol = true
    · rw [if_neg (not_not_intro hcols)]
      rcases h with hc | ⟨r, hr, e, he⟩ | ⟨r, hr, hb⟩
      · exact absurd hcols hc
      · obtain ⟨e2, he2⟩ :=
          mapExcept_error_of_mem (f := fun r => key_to_number r.key) hr ⟨e, he⟩
        exact ⟨e2, by rw [he2]⟩
      · rcases hks : mapExcept (fun r => key_to_number r.key) t.rows with e | keys
        · exact ⟨e, by rw [hks]⟩
        · refine ⟨"the Excel file contains an invalid bpm value", ?_⟩
          rw [hks, mapOption_none_of_mem (f := fun r => toNumeric? r.bpm) hr hb]
    · rw [if_pos hcols]
      exact ⟨_, rfl⟩
  refine ⟨hmain, ?_⟩
  obtain ⟨e, he⟩ := hmain
  unfold classifyEffects
  rw [he]

/-- A table whose key cell "X" resolves to nothing. -/
def badKeyTable : RawTable :=
  ⟨true, true, true, [⟨"1", "n", .str "X", .num 120, ""⟩]⟩

theorem grouper_validation_witness :
    (∃ e, classify_songs_core badKeyTable 2 5 = .error e) ∧
    classifyEffects badKeyTable 2 5 = [] :=
  grouper_validation_spec badKeyTable 2 5
    (Or.inr (Or.inl ⟨⟨"1", "n", .str "X", .num 120, ""⟩, by decide,
      "unrecognized key: X", rfl⟩))

/-! ## C9: empty groups are produced but dropped from the sink -/

theorem classifyAux_ne_nil {songs : List Song} {keyRange bpmRange : ℤ} :
    ∀ {l used g : List ℕ}, g ∈ classifyAux songs keyRange bpmRange used l → g ≠ [] := by
  intro l
  induction l with
  | nil => intro used g hg; cases hg
  | cons i rest ih =>
      intro used g hg
      rcases List.mem_cons.mp hg with rfl | h2
      · simp
      · exact ih h2

theorem classifyAux_length {songs : List Song} {keyRange bpmRange : ℤ} :
    ∀ (l used : List ℕ),
      (classifyAux songs keyRange bpmRange used l).length = l.length := by
  intro l
  induction l with
  | nil => intro used; rfl
  | cons i rest ih => intro used; simp [classifyAux, ih]

theorem sinkRows_filter {songs : List Song} :
    ∀ {gs : List (List ℕ)}, (∀ g ∈ gs, g ≠ []) →
      sinkRows songs gs =
        (gs.filter (fun g => 2 ≤ g.length)).flatMap (groupPairs songs) := by
  intro gs
  induction gs with
  | nil => intro _; rfl
  | cons g rest ih =>
      intro h
      have hg := h g (by simp)
      have hrest := ih (fun x hx => h x (by simp [hx]))
      unfold sinkRows at hrest ⊢
      by_cases h1 : g.length = 1
      · have h2 : ¬ (2 ≤ g.length) := by omega
        simp [h1, h2, hrest]
      · have hlen : 1 ≤ g.length := by
          cases g with
          | nil => exact absurd rfl hg
          | cons a ms => simp
        have h2 : 2 ≤ g.length := by omega
        simp [h1, h2, hrest]

/-- C9: the Grouper produces one group per record (a zero-match group
included), every group carries its anchor, a size-one group contributes no
sink rows, and the sink equals the expansion of exactly the groups with at
least two members. -/
theorem grouper_retention_spec (songs : List Song) (keyRange bpmRange : ℤ) :
    (classifyGroups songs keyRange bpmRange).length = songs.length ∧
    (∀ g ∈ classifyGroups songs keyRange bpmRange, g ≠ []) ∧
    (∀ g ∈ classifyGroups songs keyRange bpmRange,
      g.length = 1 → groupPairs songs g = []) ∧
    sinkRows songs (classifyGroups songs keyRange bpmRange) =
      ((classifyGroups songs keyRange bpmRange).filter
        (fun g => 2 ≤ g.length)).flatMap (groupPairs songs) := by
  have hne : ∀ g ∈ classifyGroups songs keyRange bpmRange, g ≠ [] :=
    fun _ hg => classifyAux_ne_nil hg
  refine ⟨?_, hne, ?_, sinkRows_filter hne⟩
  · have := @classifyAux_length songs keyRange bpmRange (List.range songs.length) []
    simpa [classifyGroups] using this
  · intro g hg h1
    rcases g with _ | ⟨a, ms⟩
    · exact absurd rfl (hne _ hg)
    · have hms : ms = [] := by
        cases ms with
        | nil => rfl
        | cons b bs => simp at h1
      subst hms
      rfl

/-- The three-song scenario of the spec: songs 1 and 2 pair up, song 3
matches nobody. -/
def demoSongs : List Song :=
  [⟨"1", 0, 120, "f"⟩, ⟨"2", 2, 122, "f"⟩, ⟨"3", 0, 150, "m"⟩]

theorem grouper_retention_witness :
    (classifyGroups demoSongs 2 5).length = demoSongs.length ∧
    (∀ g ∈ classifyGroups demoSongs 2 5, g ≠ []) ∧
    (∀ g ∈ classifyGroups demoSongs 2 5, g.length = 1 → groupPairs demoSongs g = []) ∧
    sinkRows demoSongs (classifyGroups demoSongs 2 5) =
      ((classifyGroups demoSongs 2 5).filter
        (fun g => 2 ≤ g.length)).flatMap (groupPairs demoSongs) :=
  grouper_retention_spec demoSongs 2 5

/-! ## C7: a missing segment fails its pair only -/

theorem assembleFold_spec (rows : List CRow) (fsRoot : List (String × Folder))
    (gap : ℚ) :
    ∀ (ks : List ℕ) (s0 : ℕ) (e0 : List (String × List ℕ)),
      ks.foldl (assembleStep rows fsRoot gap) (s0, e0) =
        (s0 + ks.countP (fun k => (pairOutcomeAt rows fsRoot gap k).isSome),
         e0 ++ ks.filterMap (pairOutcomeAt rows fsRoot gap)) := by
  intro ks
  induction ks with
  | nil => intro s0 e0; simp
  | cons k rest ih =>
      intro s0 e0
      rw [List.foldl_cons, List.countP_cons, List.filterMap_cons]
      rcases ho : pairOutcomeAt rows fsRoot gap k with _ | e
      · rw [show assembleStep rows fsRoot gap (s0, e0) k = (s0, e0) from by
          unfold assembleStep; rw [ho], ih]
        simp [ho]
      · rw [show assembleStep rows fsRoot gap (s0, e0) k = (s0 + 1, e0 ++ [e]) from by
          unfold assembleStep; rw [ho], ih]
        simp [Prod.mk.injEq]
        try omega

theorem countP_filter_ne {p : ℕ → Bool} {k : ℕ} (hk : p k = false) :
    ∀ l : List ℕ, l.countP p = (l.filter (fun j => j ≠ k)).countP p := by
  intro l
  induction l with
  | nil => rfl
  | cons a as ih =>
      by_cases ha : a = k
      · subst ha
        rw [List.countP_cons, hk]
        simp [List.filter_cons, ih]
      · simp [List.countP_cons, List.filter_cons, ha, ih]

/-- C7: when the pair at index k has a well-formed product name and an
existing folder but one of its four required segments is absent, that
pair's concat raises a missing-file error and contributes nothing to the
success count or exports, the total still counts it, and every other pair
is still processed independently. -/
theorem assembler_missing_segment (rows : List CRow)
    (fsRoot : List (String × Folder)) (gap : ℚ) (k : ℕ)
    (prod idA idB : String) (folder : Folder)
    (hk : k < rows.length / 2)
    (hprodeq : (rows.getD (2 * k) default).product = prod)
    (hprodne : prod ≠ "")
    (hparse : parse_product_name prod = (idA, idB))
    (hai : idA ≠ "") (hbi : idB ≠ "")
    (hfolder : fsRoot.lookup (sanitize_filename prod) = some folder)
    (hmiss : find_audio_file folder idA frontLabel = none ∨
             find_audio_file folder idB frontLabel = none ∨
             find_audio_file folder idA backLabel = none ∨
             find_audio_file folder idB backLabel = none) :
    (∃ e, concat_audio_pair folder idA idB gap = .error e) ∧
    pairOutcomeAt rows fsRoot gap k = none ∧
    (concat_audio_core rows fsRoot gap).total = rows.length / 2 ∧
    (concat_audio_core rows fsRoot gap).success =
      ((List.range (rows.length / 2)).filter (fun j => j ≠ k)).countP
        (fun j => (pairOutcomeAt rows fsRoot gap j).isSome) ∧
    (concat_audio_core rows fsRoot gap).exports =
      (List.range (rows.length / 2)).filterMap (pairOutcomeAt rows fsRoot gap) := by
  have herr : ∃ e, concat_audio_pair folder idA idB gap = .error e := by
    rcases h1 : find_audio_file folder idA frontLabel with _ | p1
    · exact ⟨_, by unfold concat_audio_pair; rw [h1]⟩
    rcases h2 : find_audio_file folder idB frontLabel with _ | p2
    · exact ⟨_, by unfold concat_audio_pair; rw [h1, h2]⟩
    rcases h3 : find_audio_file folder idA backLabel with _ | p3
    · exact ⟨_, by unfold concat_audio_pair; rw [h1, h2, h3]⟩
    rcases h4 : find_audio_file folder idB backLabel with _ | p4
    · exact ⟨_, by unfold concat_audio_pair; rw [h1, h2, h3, h4]⟩
    exfalso
    rcases hmiss with h | h | h | h
    · rw [h] at h1; cases h1
    · rw [h] at h2; cases h2
    · rw [h] at h3; cases h3
    · rw [h] at h4; cases h4
  have hout : pairOutcomeAt rows fsRoot gap k = none := by
    obtain ⟨e, he⟩ := herr
    unfold pairOutcomeAt concat_pair_outcome
    rw [hprodeq, if_neg hprodne]
    simp only [hparse]
    rw [if_neg (by push_neg; exact ⟨hai, hbi⟩), hfolder]
    simp only [he]
  have hcore : (List.range (rows.length / 2)).foldl
      (assembleStep rows fsRoot gap) (0, []) =
      ((List.range (rows.length / 2)).countP
         (fun j => (pairOutcomeAt rows fsRoot gap j).isSome),
       (List.range (rows.length / 2)).filterMap (pairOutcomeAt rows fsRoot gap)) := by
    rw [assembleFold_spec]
    simp
  refine ⟨herr, hout, rfl, ?_, ?_⟩
  · show ((List.range (rows.length / 2)).foldl
      (assembleStep rows fsRoot gap) (0, [])).1 = _
    rw [hcore]
    exact countP_filter_ne (by rw [hout]; rfl) _
  · show ((List.range (rows.length / 2)).foldl
      (assembleStep rows fsRoot gap) (0, [])).2 = _
    rw [hcore]

/-- A pair folder missing the 2-后段副歌 segment. -/
def w7folderBad : Folder :=
  [("1-前段副歌.mp3", [10]), ("2-前段副歌.wav", [20]), ("1-后段副歌.mp3", [30])]

/-- A complete pair folder for ids 3 and 4. -/
def w7folder34 : Folder :=
  [("3-前段副歌.mp3", [1]), ("4-前段副歌.mp3", [2]),
   ("3-后段副歌.mp3", [3]), ("4-后段副歌.mp3", [4])]

/-- Two classified pairs: the first is missing a segment, the second is
complete. -/
def w7rows : List CRow := [⟨"1-2-拼接成品"⟩, ⟨""⟩, ⟨"3-4-拼接成品"⟩, ⟨""⟩]

/-- The conformed-audio directories for the two pairs. -/
def w7fs : List (String × Folder) :=
  [("1-2-拼接成品", w7folderBad), ("3-4-拼接成品", w7folder34)]

theorem assembler_missing_segment_witness :
    (∃ e, concat_audio_pair w7folderBad "1" "2" 0 = .error e) ∧
    pairOutcomeAt w7rows w7fs 0 0 = none ∧
    (concat_audio_core w7rows w7fs 0).total = w7rows.length / 2 ∧
    (concat_audio_core w7rows w7fs 0).success =
      ((List.range (w7rows.length / 2)).filter (fun j => j ≠ 0)).countP
        (fun j => (pairOutcomeAt w7rows w7fs 0 j).isSome) ∧
    (concat_audio_core w7rows w7fs 0).exports =
      (List.range (w7rows.length / 2)).filterMap (pairOutcomeAt w7rows w7fs 0) :=
  assembler_missing_segment w7rows w7fs 0 0 "1-2-拼接成品" "1" "2" w7folderBad
    (by decide) rfl (by decide) (by decide) (by decide) (by decide) (by decide)
    (Or.inr (Or.inr (Or.inr (by decide))))

/-! ## C6: asset resolution policy -/

theorem lexLe_total : ∀ a b : List Char, lexLe a b = true ∨ lexLe b a = true := by
  intro a
  induction a with
  | nil => intro b; left; rfl
  | cons x xs ih =>
      intro b
      cases b with
      | nil => right; rfl
      | cons y ys =>
          by_cases h1 : x.toNat < y.toNat
          · left; simp [lexLe, h1]
          · by_cases h2 : y.toNat < x.toNat
            · right; simp [lexLe, h2]
            · rcases ih ys with h | h
              · left; simp [lexLe, h1, h2, h]
              · right; simp [lexLe, h1, h2, h]

theorem lexLe_trans : ∀ a b c : List Char,
    lexLe a b = true → lexLe b c = true → lexLe a c = true := by
  intro a
  induction a with
  | nil => intro b c _ _; rfl
  | cons x xs ih =>
      intro b c hab hbc
      cases b with
      | nil => cases hab
      | cons y ys =>
          cases c with
          | nil => cases hbc
          | cons z zs =>
              unfold lexLe at hab hbc ⊢
              split_ifs at hab hbc ⊢ <;>
                first
                  | rfl
                  | exact ih ys zs hab hbc
                  | (exfalso; omega)

instance : IsTotal AFile stemRel :=
  ⟨fun a b => lexLe_total a.stem.toList b.stem.toList⟩

instance : IsTrans AFile stemRel :=
  ⟨fun a b c => lexLe_trans a.stem.toList b.stem.toList c.stem.toList⟩

theorem sortByStem_perm (l : List AFile) : (sortByStem l).Perm l :=
  List.perm_insertionSort stemRel l

theorem sortByStem_sorted (l : List AFile) : List.Sorted stemRel (sortByStem l) :=
  List.sorted_insertionSort stemRel l

theorem identMatchB_iff (sid : String) (f : AFile) :
    identMatchB sid f = true ↔
      (pyLower f.ext ∈ audioExtensionsStep2 ∧
       sid.toList <+: f.stem.toList ∧
       (f.stem.toList.length = sid.toList.length ∨
        ∃ c, f.stem.toList.get? sid.toList.length = some c ∧ c ∈ sepChars)) := by
  rcases hg : (f.stem.data)[sid.length]? with _ | c <;>
    simp [identMatchB, hg, Bool.and_eq_true, Bool.or_eq_true,
      List.isPrefixOf_iff_prefix, and_assoc]

theorem isInfixB_iff (needle : List Char) :
    ∀ hay, isInfixB needle hay = true ↔ needle <:+: hay := by
  intro hay
  induction hay with
  | nil => simp [isInfixB, List.infix_nil, List.isEmpty_iff]
  | cons c t ih =>
      simp [isInfixB, Bool.or_eq_true, List.isPrefixOf_iff_prefix, ih,
        List.infix_cons_iff]

theorem nameMatchB_iff (sname : String) (f : AFile) :
    nameMatchB sname f = true ↔
      (pyLower f.ext ∈ audioExtensionsStep2 ∧
       (pyLower (pyStrip sname)).toList <:+: (pyLower f.stem).toList) := by
  simp [nameMatchB, Bool.and_eq_true, isInfixB_iff]

theorem find_audio_files_body (files : List AFile) (sid sname : String)
    (hid : sid ≠ "" ∧ pyStrip sid ≠ "" ∧ pyLower sid ≠ "nan") :
    find_audio_files files sid sname =
      (if files.filter (identMatchB (pyStrip sid)) ≠ [] then
         sortByStem (files.filter (identMatchB (pyStrip sid)))
       else if sname ≠ "" then
         (if files.filter (nameMatchB sname) ≠ [] then
            sortByStem (files.filter (nameMatchB sname))
          else [])
       else []) := by
  unfold find_audio_files
  rw [if_pos hid]
  by_cases h1 : files.filter (identMatchB (pyStrip sid)) ≠ []
  · rw [if_pos h1, if_pos h1]
  · rw [if_neg h1, if_neg h1]
    rfl

/-- C6: with a usable id, the identity pass returns exactly the files whose
stem starts with the id followed by end-of-name or a separator (and has an
audio extension); the case-insensitive name-substring pass is consulted
only when the identity pass finds nothing; and the returned list is always
sorted by file stem. -/
theorem asset_resolution_spec (files : List AFile) (sid sname : String)
    (hid : sid ≠ "" ∧ pyStrip sid ≠ "" ∧ pyLower sid ≠ "nan") :
    (∀ f, identMatchB (pyStrip sid) f = true ↔
       (pyLower f.ext ∈ audioExtensionsStep2 ∧
        (pyStrip sid).toList <+: f.stem.toList ∧
        (f.stem.toList.length = (pyStrip sid).toList.length ∨
         ∃ c, f.stem.toList.get? (pyStrip sid).toList.length = some c ∧
           c ∈ sepChars))) ∧
    (∀ f, nameMatchB sname f = true ↔
       (pyLower f.ext ∈ audioExtensionsStep2 ∧
        (pyLower (pyStrip sname)).toList <:+: (pyLower f.stem).toList)) ∧
    (files.filter (identMatchB (pyStrip sid)) ≠ [] →
      (find_audio_files files sid sname).Perm
        (files.filter (identMatchB (pyStrip sid)))) ∧
    (files.filter (identMatchB (pyStrip sid)) = [] → sname ≠ "" →
      (find_audio_files files sid sname).Perm
        (files.filter (nameMatchB sname))) ∧
    (files.filter (identMatchB (pyStrip sid)) = [] → sname = "" →
      find_audio_files files sid sname = []) ∧
    List.Sorted stemRel (find_audio_files files sid sname) := by
  rw [find_audio_files_body files sid sname hid]
  refine ⟨fun f => identMatchB_iff _ f, fun f => nameMatchB_iff _ f, ?_, ?_, ?_, ?_⟩
  · intro h1
    rw [if_pos h1]
    exact sortByStem_perm _
  · intro h1 h2
    rw [if_neg (not_not_intro h1), if_pos h2]
    by_cases h3 : files.filter (nameMatchB sname) ≠ []
    · rw [if_pos h3]
      exact sortByStem_perm _
    · rw [if_neg h3]
      rw [not_not] at h3
      rw [h3]
  · intro h1 h2
    rw [if_neg (not_not_intro h1), if_neg (not_not_intro h2)]
  · by_cases h1 : files.filter (identMatchB (pyStrip sid)) ≠ []
    · rw [if_pos h1]
      exact sortByStem_sorted _
    · rw [if_neg h1]
      by_cases h2 : sname ≠ ""
      · rw [if_pos h2]
        by_cases h3 : files.filter (nameMatchB sname) ≠ []
        · rw [if_pos h3]
          exact sortByStem_sorted _
        · rw [if_neg h3]
          exact List.sorted_nil
      · rw [if_neg h2]
        exact List.sorted_nil

/-- Files for the identity-boundary scenario: id 12 must not match stem
123-x. -/
def w6files : List AFile := [⟨"123-x", ".mp3"⟩, ⟨"12-a", ".wav"⟩]

theorem asset_resolution_witness :
    (∀ f, identMatchB (pyStrip "12") f = true ↔
       (pyLower f.ext ∈ audioExtensionsStep2 ∧
        (pyStrip "12").toList <+: f.stem.toList ∧
        (f.stem.toList.length = (pyStrip "12").toList.length ∨
         ∃ c, f.stem.toList.get? (pyStrip "12").toList.length = some c ∧
           c ∈ sepChars))) ∧
    (∀ f, nameMatchB "song" f = true ↔
       (pyLower f.ext ∈ audioExtensionsStep2 ∧
        (pyLower (pyStrip "song")).toList <:+: (pyLower f.stem).toList)) ∧
    (w6files.filter (identMatchB (pyStrip "12")) ≠ [] →
      (find_audio_files w6files "12" "song").Perm
        (w6files.filter (identMatchB (pyStrip "12")))) ∧
    (w6files.filter (identMatchB (pyStrip "12")) = [] → "song" ≠ "" →
      (find_audio_files w6files "12" "song").Perm
        (w6files.filter (nameMatchB "song"))) ∧
    (w6files.filter (identMatchB (pyStrip "12")) = [] → "song" = "" →
      find_audio_files w6files "12" "song" = []) ∧
    List.Sorted stemRel (find_audio_files w6files "12" "song") :=
  asset_resolution_spec w6files "12" "song" (by decide)

/-! ## C1: the Grouper's matching rule -/

theorem classifyAux_getD {songs : List Song} {keyRange bpmRange : ℤ} :
    ∀ (l : List ℕ) (used : List ℕ) (m : ℕ), m < l.length →
      (classifyAux songs keyRange bpmRange used l).getD m [] =
        (l.getD m 0) ::
          scanMatches songs keyRange bpmRange
            ((l.getD m 0) :: ((l.take m).reverse ++ used)) (l.getD m 0) := by
  intro l
  induction l with
  | nil => intro used m hm; cases hm
  | cons i rest ih =>
      intro used m hm
      cases m with
      | zero => simp [classifyAux]
      | succ n =>
          have hn : n < rest.length := by simpa using hm
          simp only [classifyAux, List.getD_cons_succ]
          rw [ih (i :: used) n hn]
          simp [List.take_succ_cons, List.reverse_cons, List.append_assoc]

theorem songMatchesB_iff (keyRange bpmRange : ℤ) (anchor cand : Song) :
    songMatchesB keyRange bpmRange anchor cand = true ↔
      (cand.gender = anchor.gender ∧
       min |cand.keyNum - anchor.keyNum| (12 - |cand.keyNum - anchor.keyNum|)
         ≤ keyRange ∧
       |cand.bpm - anchor.bpm| ≤ (bpmRange : ℚ)) := by
  simp only [songMatchesB]
  by_cases h1 : cand.gender ≠ anchor.gender
  · rw [if_pos h1]
    simp [h1]
  · rw [if_neg h1]
    have heq : cand.gender = anchor.gender := not_not.mp h1
    by_cases h2 : min |cand.keyNum - anchor.keyNum|
        (12 - |cand.keyNum - anchor.keyNum|) > keyRange
    · rw [if_pos h2]
      constructor
      · intro hF; cases hF
      · rintro ⟨_, hk, _⟩; omega
    · rw [if_neg h2]
      push_neg at h2
      simp [heq, h2, decide_eq_true_eq]

theorem scanMatches_mem (songs : List Song) (keyRange bpmRange : ℤ)
    (used : List ℕ) (aIdx j : ℕ) :
    j ∈ scanMatches songs keyRange bpmRange used aIdx ↔
      (j < songs.length ∧ ¬ j ∈ used ∧
       songMatchesB keyRange bpmRange
         (songs.getD aIdx default) (songs.getD j default) = true) := by
  simp [scanMatches, List.mem_filter, List.mem_range, Bool.and_eq_true,
    Bool.not_eq_true', and_assoc]

theorem scanMatches_pairwise (songs : List Song) (keyRange bpmRange : ℤ)
    (used : List ℕ) (aIdx : ℕ) :
    List.Pairwise (fun a b => a < b)
      (scanMatches songs keyRange bpmRange used aIdx) :=
  List.Pairwise.sublist (List.filter_sublist _)
    (List.pairwise_lt_range songs.length)

theorem range_getD {n m : ℕ} (h : m < n) : (List.range n).getD m 0 = m := by
  rw [List.getD_eq_getElem?_getD, List.getElem?_range h]
  rfl

/-- C1: the Grouper makes each record an anchor exactly once, in input
order (group m has anchor m); a candidate j joins anchor m's group iff j
has not yet been consumed as an anchor (m < j), the normalized genders
agree, the circular pitch-class distance is within keyRange, and the
absolute tempo difference is within bpmRange; matches stay in original row
order (strictly increasing indices, no re-sorting). -/
theorem grouper_matching_spec (songs : List Song) (keyRange bpmRange : ℤ)
    (m j : ℕ) (hm : m < songs.length) :
    (classifyGroups songs keyRange bpmRange).length = songs.length ∧
    ∃ tl, (classifyGroups songs keyRange bpmRange).getD m [] = m :: tl ∧
      List.Pairwise (fun a b => a < b) tl ∧
      (j ∈ tl ↔ (j < songs.length ∧ m < j ∧
        (songs.getD j default).gender = (songs.getD m default).gender ∧
        min |(songs.getD j default).keyNum - (songs.getD m default).keyNum|
            (12 - |(songs.getD j default).keyNum - (songs.getD m default).keyNum|)
          ≤ keyRange ∧
        |(songs.getD j default).bpm - (songs.getD m default).bpm|
          ≤ (bpmRange : ℚ))) := by
  constructor
  · have := @classifyAux_length songs keyRange bpmRange (List.range songs.length) []
    simpa [classifyGroups] using this
  · have hget := @classifyAux_getD songs keyRange bpmRange
      (List.range songs.length) [] m (by simpa using hm)
    rw [range_getD hm, List.take_range] at hget
    have hmin : m ⊓ songs.length = m := by omega
    rw [hmin, List.append_nil] at hget
    refine ⟨_, by unfold classifyGroups; exact hget, scanMatches_pairwise _ _ _ _ _, ?_⟩
    rw [scanMatches_mem]
    have hused : j ∈ (m :: (List.range m).reverse) ↔ j ≤ m := by
      simp only [List.mem_cons, List.mem_reverse, List.mem_range]
      omega
    rw [hused, songMatchesB_iff]
    constructor
    · rintro ⟨hjn, hle, hg, hk, hb⟩
      exact ⟨hjn, by omega, hg, hk, hb⟩
    · rintro ⟨hjn, hlt, hg, hk, hb⟩
      exact ⟨hjn, by omega, hg, hk, hb⟩

theorem grouper_matching_witness :
    (classifyGroups demoSongs 2 5).length = demoSongs.length ∧
    ∃ tl, (classifyGroups demoSongs 2 5).getD 0 [] = 0 :: tl ∧
      List.Pairwise (fun a b => a < b) tl ∧
      (1 ∈ tl ↔ (1 < demoSongs.length ∧ 0 < 1 ∧
        (demoSongs.getD 1 default).gender = (demoSongs.getD 0 default).gender ∧
        min |(demoSongs.getD 1 default).keyNum - (demoSongs.getD 0 default).keyNum|
            (12 - |(demoSongs.getD 1 default).keyNum - (demoSongs.getD 0 default).keyNum|)
          ≤ 2 ∧
        |(demoSongs.getD 1 default).bpm - (demoSongs.getD 0 default).bpm|
          ≤ ((5 : ℤ) : ℚ))) :=
  grouper_matching_spec demoSongs 2 5 0 1 (by decide)

/-! ## C2: re-running the Planner over an existing output directory -/

theorem copyAnchorFiles_cons (folder : String) (af : AFile) (rest : List AFile)
    (st : RunState) :
    copyAnchorFiles folder (af :: rest) st =
      copyAnchorFiles folder rest
        (if outPath folder af.stem ∈ st.fs then st
         else { st with fs := st.fs ++ [outPath folder af.stem],
                        events := st.events ++ [.copyAnchor (outPath folder af.stem)] }) := by
  unfold copyAnchorFiles
  rw [List.foldl_cons]

theorem copyAnchorFiles_fields :
    ∀ (afs : List AFile) (folder : String) (st : RunState),
      (copyAnchorFiles folder afs st).processed = st.processed ∧
      (copyAnchorFiles folder afs st).copied = st.copied ∧
      (copyAnchorFiles folder afs st).success = st.success := by
  intro afs
  induction afs with
  | nil => intro folder st; exact ⟨rfl, rfl, rfl⟩
  | cons af rest ih =>
      intro folder st
      rw [copyAnchorFiles_cons]
      by_cases h : outPath folder af.stem ∈ st.fs
      · rw [if_pos h]
        exact ih folder st
      · rw [if_neg h]
        simpa using ih folder _

theorem copyAnchorFiles_fs_mono :
    ∀ (afs : List AFile) (folder : String) (st : RunState),
      st.fs ⊆ (copyAnchorFiles folder afs st).fs := by
  intro afs
  induction afs with
  | nil => intro folder st; exact fun x hx => hx
  | cons af rest ih =>
      intro folder st
      rw [copyAnchorFiles_cons]
      by_cases h : outPath folder af.stem ∈ st.fs
      · rw [if_pos h]
        exact ih folder st
      · rw [if_neg h]
        refine (List.subset_append_left st.fs [outPath folder af.stem]).trans ?_
        exact ih folder
          { st with fs := st.fs ++ [outPath folder af.stem],
                    events := st.events ++ [.copyAnchor (outPath folder af.stem)] }

theorem copyAnchorFiles_path_mem :
    ∀ (afs : List AFile) (folder : String) (st : RunState) (af : AFile),
      af ∈ afs → outPath folder af.stem ∈ (copyAnchorFiles folder afs st).fs := by
  intro afs
  induction afs with
  | nil => intro folder st af haf; cases haf
  | cons a rest ih =>
      intro folder st af haf
      rw [copyAnchorFiles_cons]
      rcases List.mem_cons.mp haf with rfl | h2
      · by_cases h : outPath folder af.stem ∈ st.fs
        · rw [if_pos h]
          exact copyAnchorFiles_fs_mono rest folder st h
        · rw [if_neg h]
          apply copyAnchorFiles_fs_mono rest folder _
          simp
      · exact ih folder _ af h2

theorem copyAnchorFiles_id :
    ∀ (afs : List AFile) (folder : String) (st : RunState),
      (∀ af ∈ afs, outPath folder af.stem ∈ st.fs) →
      copyAnchorFiles folder afs st = st := by
  intro afs
  induction afs with
  | nil => intro folder st _; rfl
  | cons a rest ih =>
      intro folder st h
      rw [copyAnchorFiles_cons, if_pos (h a (by simp))]
      exact ih folder st (fun af haf => h af (by simp [haf]))

theorem anchorPhase_processed (st : RunState) (t : Task) :
    (anchorPhase st t).processed = st.processed := by
  unfold anchorPhase
  by_cases h : t.product ∈ st.copied
  · rw [if_pos h]
  · rw [if_neg h]
    simpa using (copyAnchorFiles_fields t.anchorFiles (sanitize_filename t.product) st).1

theorem anchorPhase_copied (st : RunState) (t : Task) :
    (anchorPhase st t).copied =
      (if t.product ∈ st.copied then st.copied else st.copied ++ [t.product]) := by
  unfold anchorPhase
  by_cases h : t.product ∈ st.copied
  · rw [if_pos h, if_pos h]
  · rw [if_neg h, if_neg h]
    simpa using congrArg (fun l => l ++ [t.product])
      (copyAnchorFiles_fields t.anchorFiles (sanitize_filename t.product) st).2.1

theorem anchorPhase_success (st : RunState) (t : Task) :
    (anchorPhase st t).success = st.success := by
  unfold anchorPhase
  by_cases h : t.product ∈ st.copied
  · rw [if_pos h]
  · rw [if_neg h]
    simpa using (copyAnchorFiles_fields t.anchorFiles (sanitize_filename t.product) st).2.2

theorem anchorPhase_fs_mono (st : RunState) (t : Task) :
    st.fs ⊆ (anchorPhase st t).fs := by
  unfold anchorPhase
  by_cases h : t.product ∈ st.copied
  · rw [if_pos h]
    exact fun x hx => hx
  · rw [if_neg h]
    simpa using copyAnchorFiles_fs_mono t.anchorFiles (sanitize_filename t.product) st

theorem fsInsert_self_mem (fs : List String) (p : String) : p ∈ fsInsert fs p := by
  unfold fsInsert
  by_cases h : p ∈ fs
  · rw [if_pos h]; exact h
  · rw [if_neg h]; simp

theorem fsInsert_mono (fs : List String) (p : String) : fs ⊆ fsInsert fs p := by
  unfold fsInsert
  by_cases h : p ∈ fs
  · rw [if_pos h]
    exact fun x hx => hx
  · rw [if_neg h]
    exact List.subset_append_left fs _

theorem fsInsert_of_mem {fs : List String} {p : String} (h : p ∈ fs) :
    fsInsert fs p = fs := by
  unfold fsInsert
  rw [if_pos h]

theorem runTask_success (st : RunState) (t : Task) :
    (runTask st t).success = st.success + 1 := by
  unfold runTask
  by_cases h : taskKey t ∈ (anchorPhase st t).processed
  · rw [if_pos h]
    simp [anchorPhase_success]
  · rw [if_neg h]
    simp [anchorPhase_success]

theorem runTask_processed (st : RunState) (t : Task) :
    (runTask st t).processed =
      (if taskKey t ∈ st.processed then st.processed
       else st.processed ++ [taskKey t]) := by
  by_cases h : taskKey t ∈ st.processed <;>
    simp [runTask, anchorPhase_processed, h]

theorem runTask_copied (st : RunState) (t : Task) :
    (runTask st t).copied =
      (if t.product ∈ st.copied then st.copied else st.copied ++ [t.product]) := by
  by_cases h : taskKey t ∈ st.processed <;>
    simp [runTask, anchorPhase_processed, anchorPhase_copied, h]

theorem runTask_fs_super_anchor (st : RunState) (t : Task) :
    (anchorPhase st t).fs ⊆ (runTask st t).fs := by
  unfold runTask
  by_cases h : taskKey t ∈ (anchorPhase st t).processed
  · rw [if_pos h]
    exact fun x hx => hx
  · rw [if_neg h]
    simpa using fsInsert_mono (anchorPhase st t).fs _

theorem runTask_fs_mono (st : RunState) (t : Task) : st.fs ⊆ (runTask st t).fs :=
  (anchorPhase_fs_mono st t).trans (runTask_fs_super_anchor st t)

theorem foldl_runTask_fs_mono :
    ∀ (ts : List Task) (st : RunState), st.fs ⊆ (List.foldl runTask st ts).fs := by
  intro ts
  induction ts with
  | nil => intro st; exact fun x hx => hx
  | cons t rest ih =>
      intro st
      rw [List.foldl_cons]
      exact (runTask_fs_mono st t).trans (ih (runTask st t))

theorem foldl_runTask_success :
    ∀ (ts : List Task) (st : RunState),
      (List.foldl runTask st ts).success = st.success + ts.length := by
  intro ts
  induction ts with
  | nil => intro st; simp
  | cons t rest ih =>
      intro st
      rw [List.foldl_cons, ih, runTask_success]
      simp
      omega

theorem runTask_fs_id (σ τ : RunState) (t : Task)
    (hp : τ.processed = σ.processed) (hc : τ.copied = σ.copied)
    (hsub : (runTask σ t).fs ⊆ τ.fs) :
    (runTask τ t).fs = τ.fs := by
  have hanchor_fs : (anchorPhase τ t).fs = τ.fs := by
    unfold anchorPhase
    by_cases hcp : t.product ∈ τ.copied
    · rw [if_pos hcp]
    · rw [if_neg hcp]
      have hcpσ : t.product ∉ σ.copied := by rw [← hc]; exact hcp
      have hpaths : ∀ af ∈ t.anchorFiles,
          outPath (sanitize_filename t.product) af.stem ∈ τ.fs := by
        intro af haf
        apply hsub
        apply runTask_fs_super_anchor σ t
        unfold anchorPhase
        rw [if_neg hcpσ]
        simpa using copyAnchorFiles_path_mem t.anchorFiles
          (sanitize_filename t.product) σ af haf
      rw [copyAnchorFiles_id t.anchorFiles (sanitize_filename t.product) τ hpaths]
  have hproc : (anchorPhase τ t).processed = (anchorPhase σ t).processed := by
    rw [anchorPhase_processed, anchorPhase_processed, hp]
  unfold runTask
  by_cases hk : taskKey t ∈ (anchorPhase τ t).processed
  · rw [if_pos hk]
    simpa using hanchor_fs
  · rw [if_neg hk]
    have hkσ : taskKey t ∉ (anchorPhase σ t).processed := by
      rw [← hproc]; exact hk
    have hpmem : outPath (sanitize_filename t.product) t.audioFile.stem ∈
        (runTask σ t).fs := by
      unfold runTask
      rw [if_neg hkσ]
      simpa using fsInsert_self_mem (anchorPhase σ t).fs _
    have hmem : outPath (sanitize_filename t.product) t.audioFile.stem ∈ τ.fs :=
      hsub hpmem
    simp [hanchor_fs, fsInsert_of_mem hmem]

theorem foldl_fs_stable :
    ∀ (ts : List Task) (σ τ : RunState),
      τ.processed = σ.processed → τ.copied = σ.copied →
      (List.foldl runTask σ ts).fs ⊆ τ.fs →
      (List.foldl runTask τ ts).fs = τ.fs := by
  intro ts
  induction ts with
  | nil => intro σ τ _ _ _; rfl
  | cons t rest ih =>
      intro σ τ hp hc hsub
      rw [List.foldl_cons] at hsub ⊢
      have hsub1 : (runTask σ t).fs ⊆ τ.fs :=
        (foldl_runTask_fs_mono rest (runTask σ t)).trans hsub
      have hfs : (runTask τ t).fs = τ.fs := runTask_fs_id σ τ t hp hc hsub1
      have hp2 : (runTask τ t).processed = (runTask σ t).processed := by
        rw [runTask_processed, runTask_processed, hp]
      have hc2 : (runTask τ t).copied = (runTask σ t).copied := by
        rw [runTask_copied, runTask_copied, hc]
      have hsub2 : (List.foldl runTask (runTask σ t) rest).fs ⊆ (runTask τ t).fs := by
        rw [hfs]
        exact hsub
      rw [ih (runTask σ t) (runTask τ t) hp2 hc2 hsub2, hfs]

/-- C2 (amended): running the Planner a second time against the output
directory left by the first run yields the same file set and the same
success count (every task is counted as a success again), and every run's
success count equals its task count — but the second run does not detect
the existing match outputs: it re-processes and overwrites them (see the
counterexample); only anchor copies are skipped via the on-disk existence
check, and the (productName, sourceFileStem) key dedups only within a
single run. -/
theorem planner_reentry_spec (rows : List PRow) (files : List AFile)
    (fs0 : List String) :
    (runTasks (planPairs rows files)
        (runTasks (planPairs rows files) fs0).fs).fs =
      (runTasks (planPairs rows files) fs0).fs ∧
    (runTasks (planPairs rows files)
        (runTasks (planPairs rows files) fs0).fs).success =
      (runTasks (planPairs rows files) fs0).success ∧
    (runTasks (planPairs rows files) fs0).success =
      (planPairs rows files).length := by
  have hsucc : ∀ (ts : List Task) (fs : List String),
      (runTasks ts fs).success = ts.length := by
    intro ts fs
    unfold runTasks
    rw [foldl_runTask_success]
    simp
  refine ⟨?_, ?_, hsucc _ _⟩
  · unfold runTasks
    exact foldl_fs_stable (planPairs rows files)
      ⟨[], [], 0, fs0, []⟩ ⟨[], [], 0, _, []⟩ rfl rfl (fun x hx => hx)
  · rw [hsucc, hsucc]

/-- The classified rows of the re-entry counterexample. -/
def reentryRows : List PRow :=
  [⟨"1", "x", "C", .num 100, "1-2-拼接成品"⟩, ⟨"2", "y", "C", .num 100, ""⟩]

/-- The audio files of the re-entry counterexample. -/
def reentryFiles : List AFile := [⟨"1-front", ".wav"⟩, ⟨"2-front", ".mp3"⟩]

/-- C2 counterexample: after a first Planner run, the conformed output
1-2-拼接成品/2-front.wav exists; a second run over that very directory still
re-processes and re-writes that exact file — its whole event log is one
processWrite of the existing path, with no skip — so the existing output
is not detected for match files. -/
theorem planner_reentry_cex :
    "1-2-拼接成品/2-front.wav" ∈
      (runTasks (planPairs reentryRows reentryFiles) []).fs ∧
    (runTasks (planPairs reentryRows reentryFiles)
        (runTasks (planPairs reentryRows reentryFiles) []).fs).events =
      [Event.processWrite "1-2-拼接成品/2-front.wav"] := by
  constructor
  · decide
  · decide

end MusicMashup
